import Mathlib

/-!
Verification of the sorcherer overlay library.

The definitions below are a shallow embedding of the JavaScript class
`Sorcherer` (src/unnamed/part_000, the complete CJS build, whose behaviour the
other build variants approximate): the template/placeholder engine used by
`attach` / `renderDynamicVars`, the per-frame geometry of `bufferInstance`,
the scheduler entry `autoSetup`, and the global registry operations
`attachFromRealm`, `attachClone` and `dispose`.  Numbers that can be
non-finite in JavaScript are modelled by `JsNum`; finite numeric values are
modelled by rationals.
-/

set_option maxRecDepth 4096

namespace Sorcherer

/-! ## JavaScript numbers

A JavaScript number is either finite or one of the three non-finite values.
`Number.isFinite` is true exactly on the finite ones. -/

inductive JsNum where
  | finite (q : ℚ)
  | nan
  | inf
  | negInf
deriving DecidableEq

def jsIsFinite : JsNum → Bool
  | .finite _ => true
  | _ => false

/-- JavaScript `Math.round`: round half toward positive infinity. -/
def jsRound (q : ℚ) : ℤ := ⌊q + 1/2⌋

/-! ## Association lists

`instancesById`, `objectRegistry` and the per-instance `dynamicVars` object
are string-keyed dictionaries; we model every dictionary as an association
list in insertion order.  `getA` is property read, `setA` is property write
(overwrite in place, else append, as JavaScript object assignment preserves
the position of an existing key), `delA` is the `delete` operator. -/

def getA {α β : Type} [DecidableEq α] : List (α × β) → α → Option β
  | [], _ => none
  | p :: rest, k => if p.1 = k then some p.2 else getA rest k

def setA {α β : Type} [DecidableEq α] : List (α × β) → α → β → List (α × β)
  | [], k, v => [(k, v)]
  | p :: rest, k, v => if p.1 = k then (k, v) :: rest else p :: setA rest k v

def delA {α β : Type} [DecidableEq α] (l : List (α × β)) (k : α) : List (α × β) :=
  l.filter (fun p => p.1 ≠ k)

@[simp] theorem getA_nil {α β : Type} [DecidableEq α] (k : α) :
    getA ([] : List (α × β)) k = none := rfl

theorem getA_setA_eq {α β : Type} [DecidableEq α] (l : List (α × β)) (k : α) (v : β) :
    getA (setA l k v) k = some v := by
  induction l with
  | nil => simp [getA, setA]
  | cons p rest ih =>
    by_cases h : p.1 = k
    · simp [getA, setA, h]
    · simp [getA, setA, h, ih]

theorem getA_setA_ne {α β : Type} [DecidableEq α] (l : List (α × β)) (k k' : α) (v : β)
    (h : k' ≠ k) : getA (setA l k v) k' = getA l k' := by
  induction l with
  | nil =>
    have hk : (k = k') = False := eq_false (fun hh => h hh.symm)
    simp [getA, setA, hk]
  | cons p rest ih =>
    by_cases hp : p.1 = k
    · subst hp
      have hk : (p.1 = k') = False := eq_false (fun hh => h hh.symm)
      simp [getA, setA, hk]
    · by_cases hp' : p.1 = k'
      · simp [getA, setA, hp, hp', h]
      · simp [getA, setA, hp, hp', ih]

theorem getA_delA_eq {α β : Type} [DecidableEq α] (l : List (α × β)) (k : α) :
    getA (delA l k) k = none := by
  induction l with
  | nil => rfl
  | cons p rest ih =>
    by_cases h : p.1 = k
    · simpa [delA, List.filter_cons, h] using ih
    · simpa [delA, List.filter_cons, getA, h] using ih

theorem getA_delA_ne {α β : Type} [DecidableEq α] (l : List (α × β)) (k k' : α)
    (h : k' ≠ k) : getA (delA l k) k' = getA l k' := by
  induction l with
  | nil => rfl
  | cons p rest ih =>
    by_cases hp : p.1 = k
    · subst hp
      have hk : (p.1 = k') = False := eq_false (fun hh => h hh.symm)
      simpa [delA, List.filter_cons, getA, hk] using ih
    · by_cases hp' : p.1 = k'
      · simp [delA, List.filter_cons, getA, hp, hp', h]
      · simpa [delA, List.filter_cons, getA, hp, hp'] using ih

theorem getA_append_of_some {α β : Type} [DecidableEq α] (l₁ l₂ : List (α × β)) (k : α)
    (v : β) (h : getA l₁ k = some v) : getA (l₁ ++ l₂) k = some v := by
  induction l₁ with
  | nil => simp [getA] at h
  | cons p rest ih =>
    by_cases hp : p.1 = k
    · simp [getA, hp] at h ⊢
      exact h
    · simp [getA, hp] at h ⊢
      exact ih h

theorem getA_append_of_none {α β : Type} [DecidableEq α] (l₁ l₂ : List (α × β)) (k : α)
    (h : getA l₁ k = none) : getA (l₁ ++ l₂) k = getA l₂ k := by
  induction l₁ with
  | nil => simp
  | cons p rest ih =>
    by_cases hp : p.1 = k
    · simp [getA, hp] at h
    · simp [getA, hp] at h ⊢
      exact ih h

/-! ## The placeholder grammar

Both the parse regex `\$([a-zA-Z0-9_]+)(?:=([^$]+))?\$` of `attach` and the
render regex `\$([a-zA-Z0-9_]+)(?:=[^$]+)?\$` of `renderDynamicVars` have the
same match extents.  `matchPH` decides whether such a match starts at the
head of the character list, returning the captured name, the optional inline
default, and the remainder after the match.  Greedy matching of the two
character classes needs no backtracking: shortening the `[a-zA-Z0-9_]+` run
leaves a word character in a position that must hold `$` or `=`, and
shortening the `[^$]+` run leaves a non-`$` character where `$` is required,
so the maximal-run reading below is exactly the regex semantics. -/

def isWordChar (c : Char) : Bool :=
  decide (('a' ≤ c ∧ c ≤ 'z') ∨ ('A' ≤ c ∧ c ≤ 'Z') ∨ ('0' ≤ c ∧ c ≤ '9') ∨ c = '_')

def matchPH : List Char → Option (String × Option String × List Char)
  | [] => none
  | c :: rest =>
    if c = '$' then
      if rest.takeWhile isWordChar = [] then none
      else
        match rest.dropWhile isWordChar with
        | [] => none
        | c2 :: r2 =>
          if c2 = '$' then some ((rest.takeWhile isWordChar).asString, none, r2)
          else if c2 = '=' then
            if r2.takeWhile (fun ch => ch != '$') = [] then none
            else
              match r2.dropWhile (fun ch => ch != '$') with
              | [] => none
              | c3 :: r3 =>
                if c3 = '$' then
                  some ((rest.takeWhile isWordChar).asString,
                    some ((r2.takeWhile (fun ch => ch != '$')).asString), r3)
                else none
          else none
    else none

theorem dropWhile_len_le {α : Type} (p : α → Bool) :
    ∀ l : List α, (l.dropWhile p).length ≤ l.length := by
  intro l
  induction l with
  | nil => simp
  | cons a rest ih =>
    by_cases h : p a
    · simp only [List.dropWhile_cons, h, if_true]
      exact Nat.le_succ_of_le ih
    · simp [List.dropWhile_cons, h]

theorem matchPH_tail_length {cs : List Char} {n : String} {d : Option String}
    {tail : List Char} (h : matchPH cs = some (n, d, tail)) : tail.length < cs.length := by
  match cs with
  | [] => simp [matchPH] at h
  | c :: rest =>
    by_cases hc : c = '$'
    case neg => simp [matchPH, hc] at h
    subst hc
    by_cases htw : rest.takeWhile isWordChar = []
    case pos => simp [matchPH, htw] at h
    have hd1 : (rest.dropWhile isWordChar).length ≤ rest.length := dropWhile_len_le _ rest
    cases hdw : rest.dropWhile isWordChar with
    | nil => simp [matchPH, htw, hdw] at h
    | cons c2 r2 =>
      rw [hdw] at hd1
      simp only [List.length_cons] at hd1
      by_cases hc2 : c2 = '$'
      · subst hc2
        simp only [matchPH, if_pos rfl, if_neg htw, hdw] at h
        have h3 : r2 = tail := congrArg (fun t => t.2.2) (Option.some.inj h)
        subst h3
        simp only [List.length_cons]
        omega
      · by_cases hc2' : c2 = '='
        · subst hc2'
          by_cases htw2 : r2.takeWhile (fun ch => ch != '$') = []
          · simp [matchPH, htw, hdw, hc2, htw2] at h
          · have hd2 : (r2.dropWhile (fun ch => ch != '$')).length ≤ r2.length :=
              dropWhile_len_le _ r2
            cases hdw2 : r2.dropWhile (fun ch => ch != '$') with
            | nil => simp [matchPH, htw, hdw, hc2, htw2, hdw2] at h
            | cons c3 r3 =>
              rw [hdw2] at hd2
              simp only [List.length_cons] at hd2
              by_cases hc3 : c3 = '$'
              · subst hc3
                simp only [matchPH, if_pos rfl, if_neg htw, hdw, if_neg hc2,
                  if_neg htw2, hdw2] at h
                have h3 : r3 = tail := congrArg (fun t => t.2.2) (Option.some.inj h)
                subst h3
                simp only [List.length_cons]
                omega
              · simp [matchPH, htw, hdw, hc2, htw2, hdw2, hc3] at h
        · simp [matchPH, htw, hdw, hc2, hc2'] at h

/-- One token of a scanned template: a literal character, or a placeholder
with its captured name and optional inline default. -/
inductive Tok where
  | lit (c : Char)
  | ph (name : String) (dflt : Option String)
deriving DecidableEq

/-- Global regex scan: the sequence of matches (and the literal characters
between them), exactly as `String.replace` with a `g`-flagged regex visits
them.  Structural in the fuel so that it evaluates by `decide`; each step
consumes at least one character, so `length` fuel is always enough. -/
def scanAux : Nat → List Char → List Tok
  | 0, _ => []
  | _ + 1, [] => []
  | fuel + 1, c :: rest =>
    match matchPH (c :: rest) with
    | some (n, d, tail) => Tok.ph n d :: scanAux fuel tail
    | none => Tok.lit c :: scanAux fuel rest

def scanTemplate (cs : List Char) : List Tok := scanAux cs.length cs

theorem scanAux_fuel : ∀ (f₁ f₂ : Nat) (cs : List Char),
    cs.length ≤ f₁ → cs.length ≤ f₂ → scanAux f₁ cs = scanAux f₂ cs := by
  intro f₁
  induction f₁ with
  | zero =>
    intro f₂ cs h1 _
    have : cs = [] := List.eq_nil_of_length_eq_zero (Nat.le_zero.mp h1)
    subst this
    cases f₂ <;> rfl
  | succ f ih =>
    intro f₂ cs h1 h2
    cases cs with
    | nil => cases f₂ <;> rfl
    | cons c rest =>
      cases f₂ with
      | zero => simp at h2
      | succ g =>
        simp only [scanAux]
        cases hm : matchPH (c :: rest) with
        | some v =>
          obtain ⟨n, d, tail⟩ := v
          have ht := matchPH_tail_length hm
          simp only [List.length_cons] at h1 h2 ht
          show Tok.ph n d :: scanAux f tail = Tok.ph n d :: scanAux g tail
          rw [ih g tail (by omega) (by omega)]
        | none =>
          simp only [List.length_cons] at h1 h2
          show Tok.lit c :: scanAux f rest = Tok.lit c :: scanAux g rest
          rw [ih g rest (by omega) (by omega)]

@[simp] theorem scanTemplate_nil : scanTemplate [] = [] := rfl

theorem scanTemplate_cons (c : Char) (rest : List Char) :
    scanTemplate (c :: rest) =
      match matchPH (c :: rest) with
      | some (n, d, tail) => Tok.ph n d :: scanTemplate tail
      | none => Tok.lit c :: scanTemplate rest := by
  show scanAux (rest.length + 1) (c :: rest) = _
  simp only [scanAux]
  cases hm : matchPH (c :: rest) with
  | some v =>
    obtain ⟨n, d, tail⟩ := v
    have ht := matchPH_tail_length hm
    simp only [List.length_cons] at ht
    show Tok.ph n d :: scanAux rest.length tail = Tok.ph n d :: scanTemplate tail
    rw [scanAux_fuel rest.length tail.length tail (by omega) (le_refl _)]
    rfl
  | none => rfl

/-! ## `renderDynamicVars` and the dynamic-variable store

`renderChars` is the render regex pass of `renderDynamicVars`: each match is
replaced by the current value of the captured name, or by the empty string
when the name is not a key of `dynamicVars` (`!== undefined` check); text
between matches is copied verbatim.  It is written as its own scan, exactly
as the JavaScript `String.replace` call runs its own scan. -/

def lookupVal (vars : List (String × String)) (n : String) : String :=
  (getA vars n).getD ("")

def renderAux (vars : List (String × String)) : Nat → List Char → List Char
  | 0, _ => []
  | _ + 1, [] => []
  | fuel + 1, c :: rest =>
    match matchPH (c :: rest) with
    | some (n, _, tail) => (lookupVal vars n).toList ++ renderAux vars fuel tail
    | none => c :: renderAux vars fuel rest

def renderChars (vars : List (String × String)) (cs : List Char) : List Char :=
  renderAux vars cs.length cs

/-- The contribution of one scanned token to the rendered output. -/
def tokStr (vars : List (String × String)) : Tok → List Char
  | .lit c => [c]
  | .ph n _ => (lookupVal vars n).toList

theorem renderAux_eq_scanAux (vars : List (String × String)) :
    ∀ (fuel : Nat) (cs : List Char), cs.length ≤ fuel →
      renderAux vars fuel cs = (scanAux fuel cs).flatMap (tokStr vars) := by
  intro fuel
  induction fuel with
  | zero =>
    intro cs h
    have : cs = [] := List.eq_nil_of_length_eq_zero (Nat.le_zero.mp h)
    subst this
    rfl
  | succ f ih =>
    intro cs h
    cases cs with
    | nil => rfl
    | cons c rest =>
      simp only [renderAux, scanAux]
      cases hm : matchPH (c :: rest) with
      | some v =>
        obtain ⟨n, d, tail⟩ := v
        have ht := matchPH_tail_length hm
        simp only [List.length_cons] at h ht
        show (lookupVal vars n).toList ++ renderAux vars f tail =
          (Tok.ph n d :: scanAux f tail).flatMap (tokStr vars)
        rw [ih tail (by omega)]
        simp [tokStr]
      | none =>
        simp only [List.length_cons] at h
        show c :: renderAux vars f rest = (Tok.lit c :: scanAux f rest).flatMap (tokStr vars)
        rw [ih rest (by omega)]
        simp [tokStr]

/-- The direct recursive render pass agrees with substituting each scanned
token: every placeholder occurrence of a name contributes exactly the
current value of that name (empty when unknown). -/
theorem renderChars_flatMap (vars : List (String × String)) (cs : List Char) :
    renderChars vars cs = (scanTemplate cs).flatMap (tokStr vars) :=
  renderAux_eq_scanAux vars cs.length cs (le_refl _)

/-- The parse pass of `attach`: for each match in scan order, store the
inline default (or the empty string) for the captured name, but only if the
name has not been seen before (`!(varName in this.dynamicVars)`). -/
def phStep (acc : List (String × String)) : Tok → List (String × String)
  | .lit _ => acc
  | .ph n d => if (getA acc n).isSome then acc else acc ++ [(n, d.getD (""))]

def parseVars (cs : List Char) : List (String × String) :=
  (scanTemplate cs).foldl phStep []

/-- The accessor-name pass of `attach`: `_defineDynamicVarAccessor` is called
for every match and records each distinct name once, in first-seen order. -/
def nameStep (acc : List String) : Tok → List String
  | .lit _ => acc
  | .ph n _ => if n ∈ acc then acc else acc ++ [n]

def varNames (cs : List Char) : List String :=
  (scanTemplate cs).foldl nameStep []

/-- The names of the placeholder tokens of a template, in match order. -/
def phNames (cs : List Char) : List String :=
  (scanTemplate cs).filterMap (fun t => match t with
    | Tok.ph n _ => some n
    | Tok.lit _ => none)

/-- The inline default of the first placeholder occurrence of a name:
`some d` if the first occurrence carries default `d`, `none` if `n` never
occurs as a placeholder. -/
def firstPhDefault (toks : List Tok) (n : String) : Option (Option String) :=
  toks.findSome? (fun t => match t with
    | Tok.ph m d => if m = n then some d else none
    | Tok.lit _ => none)

/-! ## Overlay instance state

The fields of one `Sorcherer` instance that the claims are about.  `objId`
is the (nullable) reference to the target `Object3D`; `dynamicVarNames` is
the `_dynamicVarNames` set backing the generated per-name accessors. -/

structure InstSt where
  objId : Option Nat
  disposed : Bool
  template : String
  dynamicVars : List (String × String)
  dynamicVarNames : List String
  offset : ℚ × ℚ × ℚ
  simulate3D : Bool
  simulateRotation : Bool
  autoCenter : Bool
  scaleMultiplier : ℚ
deriving DecidableEq

/-- Method `attach(innerHTML)`: replace the template, empty `dynamicVars`, clear the
previous accessor set (`_clearDynamicVarProperties`), then parse the new
template, populating values (first occurrence wins) and accessors. -/
def instAttach (s : InstSt) (innerHTML : String) : InstSt :=
  { s with
    template := innerHTML
    dynamicVars := parseVars innerHTML.toList
    dynamicVarNames := varNames innerHTML.toList }

/-- Assignment `dynamicVars[varName] = value` as performed by `setDynamicVar`. -/
def instSetVar (s : InstSt) (n v : String) : InstSt :=
  { s with dynamicVars := setA s.dynamicVars n v }

/-- Method `getDynamicVar(varName)`; `none` is JavaScript `undefined`. -/
def instGetVar (s : InstSt) (n : String) : Option String :=
  getA s.dynamicVars n

/-- Method `renderDynamicVars()` output for an instance: the template rendered with
the current variable values. -/
def instRender (s : InstSt) : String :=
  (renderChars s.dynamicVars s.template.toList).asString

/-! ## Parse-pass lemmas -/

theorem getA_foldl_phStep_some (toks : List Tok) (acc : List (String × String))
    (n : String) (v : String) (h : getA acc n = some v) :
    getA (toks.foldl phStep acc) n = some v := by
  induction toks generalizing acc with
  | nil => exact h
  | cons t rest ih =>
    cases t with
    | lit c => exact ih acc h
    | ph m d =>
      simp only [List.foldl_cons, phStep]
      by_cases hs : (getA acc m).isSome
      · rw [if_pos hs]
        exact ih acc h
      · rw [if_neg hs]
        exact ih _ (getA_append_of_some acc [(m, d.getD (""))] n v h)

theorem getA_foldl_phStep_none (toks : List Tok) (acc : List (String × String))
    (n : String) (h : getA acc n = none) :
    getA (toks.foldl phStep acc) n =
      (firstPhDefault toks n).map (fun d => d.getD ("")) := by
  induction toks generalizing acc with
  | nil => simpa [firstPhDefault] using h
  | cons t rest ih =>
    cases t with
    | lit c =>
      simp only [List.foldl_cons, phStep, firstPhDefault, List.findSome?_cons]
      exact ih acc h
    | ph m d =>
      simp only [List.foldl_cons, phStep, firstPhDefault, List.findSome?_cons]
      by_cases hmn : m = n
      · subst hmn
        rw [if_neg (by simp [h]), if_pos rfl]
        have hget : getA (acc ++ [(m, d.getD (""))]) m = some (d.getD ("")) := by
          rw [getA_append_of_none acc _ m h]
          simp [getA]
        simpa using getA_foldl_phStep_some rest _ m _ hget
      · have hstep : getA (if (getA acc m).isSome then acc
            else acc ++ [(m, d.getD (""))]) n = none := by
          by_cases hs : (getA acc m).isSome
          · rwa [if_pos hs]
          · rw [if_neg hs, getA_append_of_none acc _ n h]
            simp [getA, hmn]
        rw [if_neg hmn]
        exact ih _ hstep

/-! ## Accessor-pass lemmas -/

theorem mem_foldl_nameStep (toks : List Tok) (acc : List String) (n : String) :
    n ∈ toks.foldl nameStep acc ↔
      n ∈ acc ∨ n ∈ toks.filterMap (fun t => match t with
        | Tok.ph m _ => some m
        | Tok.lit _ => none) := by
  induction toks generalizing acc with
  | nil => simp
  | cons t rest ih =>
    cases t with
    | lit c =>
      simp only [List.foldl_cons, nameStep, List.filterMap_cons]
      exact ih acc
    | ph m d =>
      simp only [List.foldl_cons, nameStep, List.filterMap_cons]
      rw [ih]
      by_cases hm : m ∈ acc
      · rw [if_pos hm]
        constructor
        · rintro (ha | hr)
          · exact Or.inl ha
          · exact Or.inr (List.mem_cons_of_mem _ hr)
        · rintro (ha | hr)
          · exact Or.inl ha
          · rcases List.mem_cons.mp hr with hnm | hr'
            · exact Or.inl (hnm ▸ hm)
            · exact Or.inr hr'
      · rw [if_neg hm]
        simp only [List.mem_append, List.mem_singleton, List.mem_cons]
        tauto

/-! ## Scans over placeholder-free text -/

theorem matchPH_cons_not_dollar {c : Char} (rest : List Char) (hc : c ≠ '$') :
    matchPH (c :: rest) = none := by
  simp [matchPH, hc]

theorem scanTemplate_lit_append (l₁ l₂ : List Char) (h : ∀ c ∈ l₁, c ≠ '$') :
    scanTemplate (l₁ ++ l₂) = l₁.map Tok.lit ++ scanTemplate l₂ := by
  induction l₁ with
  | nil => simp
  | cons c r ih =>
    have hc : c ≠ '$' := h c (List.mem_cons_self c r)
    rw [List.cons_append, scanTemplate_cons, matchPH_cons_not_dollar _ hc]
    show Tok.lit c :: scanTemplate (r ++ l₂) = _
    rw [ih (fun x hx => h x (List.mem_cons_of_mem c hx))]
    rfl

theorem foldl_phStep_lits (l : List Char) (acc : List (String × String)) :
    (l.map Tok.lit).foldl phStep acc = acc := by
  induction l generalizing acc with
  | nil => rfl
  | cons c r ih => simpa [phStep] using ih acc

theorem foldl_nameStep_lits (l : List Char) (acc : List String) :
    (l.map Tok.lit).foldl nameStep acc = acc := by
  induction l generalizing acc with
  | nil => rfl
  | cons c r ih => simpa [nameStep] using ih acc

theorem flatMap_tokStr_lits (vars : List (String × String)) (l : List Char) :
    (l.map Tok.lit).flatMap (tokStr vars) = l := by
  induction l with
  | nil => rfl
  | cons c r ih => simp [tokStr, ih]

theorem takeWhile_append_stop {p : Char → Bool} (l₁ l₂ : List Char) (d : Char)
    (h1 : ∀ c ∈ l₁, p c = true) (hd : p d = false) :
    (l₁ ++ d :: l₂).takeWhile p = l₁ ∧ (l₁ ++ d :: l₂).dropWhile p = d :: l₂ := by
  induction l₁ with
  | nil => simp [List.takeWhile_cons, List.dropWhile_cons, hd]
  | cons c r ih =>
    have hc : p c = true := h1 c (List.mem_cons_self c r)
    have := ih (fun x hx => h1 x (List.mem_cons_of_mem c hx))
    simp [List.takeWhile_cons, List.dropWhile_cons, hc, this.1, this.2]

/-! ## `bufferInstance` geometry

`bufferInstance(camera, renderer)` early-returns when the target object or
the camera/renderer is missing, hides the overlay when the object is
invisible or the viewport has zero extent, and otherwise computes the screen
position from the camera-projected NDC, the distance-based scale, and the
stacking order.  The camera projection (`Vector3.project`) and the distance
computation (`Vector3.distanceTo`) are three.js capabilities outside the
embedding, so
the model takes the projected NDC coordinates and the raw distance as
inputs.  `none` models every path on which no transform is produced. -/

/-- The assignment `distance = camera.position.distanceTo(worldPos)` followed by
`if (!Number.isFinite(distance) || distance <= 0) distance = 0.0001`. -/
def guardedDistance : JsNum → ℚ
  | .finite q => if q ≤ 0 then 1/10000 else q
  | _ => 1/10000

/-- The scale `Math.max(0.1, scaleMultiplier * (referenceDistance / distance))` with
`referenceDistance = 5`. -/
def scale3D (m d : ℚ) : ℚ := max (1/10) (m * (5 / d))

structure BufferResult where
  x : ℚ
  y : ℚ
  scaleApplied : Option ℚ
  zIndex : ℤ
deriving DecidableEq

def bufferInstance (objectPresent visible : Bool) (w h : ℚ) (ndcx ndcy : ℚ)
    (rawDist : JsNum) (simulate3D : Bool) (scaleMultiplier : ℚ) : Option BufferResult :=
  if !objectPresent then none
  else if !visible then none
  else if w = 0 ∨ h = 0 then none
  else
    some { x := (w / 2) * (ndcx + 1)
           y := (h / 2) * (1 - ndcy)
           scaleApplied :=
             if simulate3D then some (scale3D scaleMultiplier (guardedDistance rawDist))
             else none
           zIndex := jsRound (1000 / guardedDistance rawDist) }

/-! ## `autoSetup` scheduler entry -/

/-- The clamp `Number.isFinite(interval) ? Math.max(0, interval) : 16`. -/
def effectiveTickInterval : JsNum → ℚ
  | .finite q => max 0 q
  | _ => 16

/-- Method `autoSetup(camera, renderer, interval)`: a no-op when the loop is already
running or camera/renderer is missing, otherwise the loop starts with the
clamped tick interval. -/
def autoSetup (running hasCamera hasRenderer : Bool) (interval : JsNum) : Option ℚ :=
  if running || !hasCamera || !hasRenderer then none
  else some (effectiveTickInterval interval)

/-- C1: for every projected point with NDC `(ndcx, ndcy)` and every viewport
`w × h`, `bufferInstance` places the overlay at `x = (ndcx + 1) * w/2`,
`y = (1 - ndcy) * h/2`; NDC inside `[-1,1]` on both axes gives `x ∈ [0,w]`
and `y ∈ [0,h]`, and NDC exactly `±1` maps to pixel `0` or `w`/`h`. -/
theorem bufferInstance_pixel_mapping
    (op vis : Bool) (w h ndcx ndcy : ℚ) (rawDist : JsNum) (s3 : Bool) (m : ℚ)
    (r : BufferResult)
    (hr : bufferInstance op vis w h ndcx ndcy rawDist s3 m = some r) :
    r.x = (ndcx + 1) * w / 2 ∧ r.y = (1 - ndcy) * h / 2 ∧
    (0 ≤ w → -1 ≤ ndcx → ndcx ≤ 1 → 0 ≤ r.x ∧ r.x ≤ w) ∧
    (0 ≤ h → -1 ≤ ndcy → ndcy ≤ 1 → 0 ≤ r.y ∧ r.y ≤ h) ∧
    (ndcx = -1 → r.x = 0) ∧ (ndcx = 1 → r.x = w) ∧
    (ndcy = 1 → r.y = 0) ∧ (ndcy = -1 → r.y = h) := by
  simp only [bufferInstance] at hr
  split at hr
  · exact absurd hr (by simp)
  · split at hr
    · exact absurd hr (by simp)
    · split at hr
      · exact absurd hr (by simp)
      · have hx : r.x = (w / 2) * (ndcx + 1) := by
          rw [← Option.some.inj hr]
        have hy : r.y = (h / 2) * (1 - ndcy) := by
          rw [← Option.some.inj hr]
        refine ⟨by rw [hx]; ring, by rw [hy]; ring, ?_, ?_, ?_, ?_, ?_, ?_⟩
        · intro hw h1 h2
          constructor
          · rw [hx]; nlinarith
          · rw [hx]; nlinarith
        · intro hh h1 h2
          constructor
          · rw [hy]; nlinarith
          · rw [hy]; nlinarith
        · intro hb; rw [hx, hb]; ring
        · intro hb; rw [hx, hb]; ring
        · intro hb; rw [hy, hb]; ring
        · intro hb; rw [hy, hb]; ring

/-- C1 witness: node at screen centre of an 800×600 viewport. -/
theorem bufferInstance_pixel_mapping_w :
    ((⟨400, 300, none, 200⟩ : BufferResult).x = (0 + 1) * 800 / 2) ∧
    (0 ≤ (⟨400, 300, none, 200⟩ : BufferResult).x ∧
      (⟨400, 300, none, 200⟩ : BufferResult).x ≤ 800) := by
  have h := bufferInstance_pixel_mapping true true 800 600 0 0 (JsNum.finite 5) false 1
    ⟨400, 300, none, 200⟩
    (by norm_num [bufferInstance, guardedDistance, jsRound, BufferResult.mk.injEq])
  exact ⟨h.1, h.2.2.1 (by norm_num) (by norm_num) (by norm_num)⟩

/-- C2: for a fixed `scaleMultiplier` `m` and positive finite distance, the
simulate3D scale computed by `bufferInstance` is `max(0.1, m * 5 / d)`; as a
function of the distance it is monotonically non-increasing and never drops
below `0.1`. -/
theorem simulate3D_scale_clamped_monotone (m d₁ d₂ : ℚ)
    (h1 : 0 < d₁) (h12 : d₁ ≤ d₂) :
    (∀ (op vis : Bool) (w h nx ny : ℚ) (r : BufferResult),
        bufferInstance op vis w h nx ny (JsNum.finite d₁) true m = some r →
        r.scaleApplied = some (max (1/10) (m * 5 / d₁))) ∧
    scale3D m d₂ ≤ scale3D m d₁ ∧ (1/10 : ℚ) ≤ scale3D m d₁ := by
  have h2 : 0 < d₂ := lt_of_lt_of_le h1 h12
  refine ⟨?_, ?_, le_max_left _ _⟩
  · intro op vis w h nx ny r hr
    simp only [bufferInstance] at hr
    split at hr
    · exact absurd hr (by simp)
    · split at hr
      · exact absurd hr (by simp)
      · split at hr
        · exact absurd hr (by simp)
        · have := Option.some.inj hr
          have hsc : r.scaleApplied =
              some (scale3D m (guardedDistance (JsNum.finite d₁))) := by
            rw [← this]
            rfl
          rw [hsc]
          have hg : guardedDistance (JsNum.finite d₁) = d₁ := by
            simp [guardedDistance, not_le.mpr h1]
          rw [hg, scale3D, mul_div_assoc]
  · rw [scale3D, scale3D]
    rcases le_or_lt 0 m with hm | hm
    · refine max_le_max (le_refl _) ?_
      refine mul_le_mul_of_nonneg_left ?_ hm
      exact div_le_div_of_nonneg_left (by norm_num) h1 h12
    · have e1 : m * (5 / d₁) ≤ 1/10 :=
        le_trans (le_of_lt (mul_neg_of_neg_of_pos hm (by positivity))) (by norm_num)
      have e2 : m * (5 / d₂) ≤ 1/10 :=
        le_trans (le_of_lt (mul_neg_of_neg_of_pos hm (by positivity))) (by norm_num)
      rw [max_eq_left e1, max_eq_left e2]

/-- C2 witness: `scaleMultiplier = 1`, distance 10 → scale `1/2`; the scale
at distance 20 is no larger, and both are at least `0.1`. -/
theorem simulate3D_scale_clamped_monotone_w :
    ((⟨400, 300, some (1/2), 100⟩ : BufferResult).scaleApplied =
      some (max (1/10) ((1 : ℚ) * 5 / 10))) ∧
    scale3D 1 20 ≤ scale3D 1 10 ∧ (1/10 : ℚ) ≤ scale3D 1 10 := by
  have h := simulate3D_scale_clamped_monotone 1 10 20 (by norm_num) (by norm_num)
  exact ⟨h.1 true true 800 600 0 0 ⟨400, 300, some (1/2), 100⟩
    (by norm_num [bufferInstance, guardedDistance, jsRound, scale3D,
      BufferResult.mk.injEq]), h.2.1, h.2.2⟩

/-- C8: the distance used by `bufferInstance` is always the guarded one,
which is strictly positive; whenever the raw distance is non-finite or
`≤ 0`, the guard substitutes the epsilon `0.0001` before any use, so the
divisions `5/distance` and `1000/distance` never divide by zero or by a
negative number. -/
theorem bufferInstance_distance_guard (rawDist : JsNum) :
    0 < guardedDistance rawDist ∧
    (jsIsFinite rawDist = false → guardedDistance rawDist = 1/10000) ∧
    (∀ q : ℚ, rawDist = JsNum.finite q → q ≤ 0 → guardedDistance rawDist = 1/10000) ∧
    (∀ (op vis : Bool) (w h nx ny m : ℚ) (r : BufferResult),
        bufferInstance op vis w h nx ny rawDist true m = some r →
        r.zIndex = jsRound (1000 / guardedDistance rawDist) ∧
        r.scaleApplied = some (scale3D m (guardedDistance rawDist))) := by
  refine ⟨?_, ?_, ?_, ?_⟩
  · cases rawDist with
    | finite q =>
      by_cases hq : q ≤ 0
      · simp [guardedDistance, hq]
      · simpa [guardedDistance, hq] using not_le.mp hq
    | nan => norm_num [guardedDistance]
    | inf => norm_num [guardedDistance]
    | negInf => norm_num [guardedDistance]
  · intro hnf
    cases rawDist with
    | finite q => simp [jsIsFinite] at hnf
    | nan => rfl
    | inf => rfl
    | negInf => rfl
  · intro q hq hle
    subst hq
    simp [guardedDistance, hle]
  · intro op vis w h nx ny m r hr
    simp only [bufferInstance] at hr
    split at hr
    · exact absurd hr (by simp)
    · split at hr
      · exact absurd hr (by simp)
      · split at hr
        · exact absurd hr (by simp)
        · have := Option.some.inj hr
          constructor
          · rw [← this]
          · rw [← this]
            rfl

/-- C8 witness: a NaN distance is replaced by the epsilon, which is
positive. -/
theorem bufferInstance_distance_guard_w :
    0 < guardedDistance JsNum.nan ∧ guardedDistance JsNum.nan = 1/10000 := by
  have h := bufferInstance_distance_guard JsNum.nan
  exact ⟨h.1, h.2.1 rfl⟩

/-- C9: when `autoSetup` starts the loop, the effective tick interval is
clamped to a non-negative value; a finite argument yields `max 0 interval`,
and any non-finite argument (NaN, +Infinity, -Infinity) falls back to the
default of 16 milliseconds. -/
theorem autoSetup_interval_clamp (running c rd : Bool) (i : JsNum) (t : ℚ)
    (h : autoSetup running c rd i = some t) :
    0 ≤ t ∧ (∀ q : ℚ, i = JsNum.finite q → t = max 0 q) ∧
    (i = JsNum.nan ∨ i = JsNum.inf ∨ i = JsNum.negInf → t = 16) := by
  simp only [autoSetup] at h
  split at h
  · exact absurd h (by simp)
  · have ht : t = effectiveTickInterval i := (Option.some.inj h).symm
    subst ht
    refine ⟨?_, ?_, ?_⟩
    · cases i with
      | finite q => exact le_max_left _ _
      | nan => norm_num [effectiveTickInterval]
      | inf => norm_num [effectiveTickInterval]
      | negInf => norm_num [effectiveTickInterval]
    · intro q hq
      subst hq
      rfl
    · rintro (hi | hi | hi) <;> subst hi <;> rfl

/-- C9 witness: starting with a NaN interval uses the default 16, which is
non-negative. -/
theorem autoSetup_interval_clamp_w :
    (0 : ℚ) ≤ effectiveTickInterval JsNum.nan ∧
    effectiveTickInterval JsNum.nan = 16 := by
  have h := autoSetup_interval_clamp false true true JsNum.nan
    (effectiveTickInterval JsNum.nan) (by decide)
  exact ⟨h.1, h.2.2 (Or.inl rfl)⟩

/-! ## Template-engine claims -/

/-- A freshly constructed instance with default configuration (no target
object, all flags off, default scale multiplier 1). -/
def sampleInst : InstSt :=
  { objId := none, disposed := false, template := "", dynamicVars := [],
    dynamicVarNames := [], offset := (0, 0, 0), simulate3D := false,
    simulateRotation := false, autoCenter := false, scaleMultiplier := 1 }

/-- C3: parsing a template via `attach` stores, for each variable name, the
value of the *first* occurrence of that name: its inline default if present,
else the empty string; later occurrences of the same name (with any
default) do not change the stored value. -/
theorem attach_first_occurrence_wins (s : InstSt) (t n : String) :
    instGetVar (instAttach s t) n =
      (firstPhDefault (scanTemplate t.toList) n).map (fun d => d.getD ("")) := by
  show getA (parseVars t.toList) n = _
  exact getA_foldl_phStep_none (scanTemplate t.toList) [] n rfl

/-- C4: `renderDynamicVars` replaces every placeholder occurrence of a known
name by the *current* value of that name (all occurrences of a name render
identically, via `tokStr`, which depends only on the name and the current
store); concretely, after setting `dogCount` to `"42"` on a template holding
`$dogCount=20$` (whose parse-time default was `"20"`), the rendered output
contains `"42"` and no longer contains `"20"`. -/
theorem render_uses_current_value :
    (∀ (vars : List (String × String)) (cs : List Char),
        renderChars vars cs = (scanTemplate cs).flatMap (tokStr vars)) ∧
    instRender (instSetVar
        (instAttach sampleInst ("<b>$dogCount=20$</b>: $dogCount$"))
        ("dogCount") ("42")) = "<b>42</b>: 42" ∧
    instGetVar (instAttach sampleInst ("<b>$dogCount=20$</b>: $dogCount$"))
      ("dogCount") = some ("20") ∧
    ("42").toList <:+: (instRender (instSetVar
        (instAttach sampleInst ("<b>$dogCount=20$</b>: $dogCount$"))
        ("dogCount") ("42"))).toList ∧
    ¬ (("20").toList <:+: (instRender (instSetVar
        (instAttach sampleInst ("<b>$dogCount=20$</b>: $dogCount$"))
        ("dogCount") ("42"))).toList) := by
  refine ⟨renderChars_flatMap, by decide, by decide, by decide, by decide⟩

/-- C5: re-attaching a template fully resets the variable store and the
accessor set: the state after `attach` does not depend on the previous
variables or accessors, and a name is exposed as an accessor after the swap
exactly when it occurs as a placeholder in the new template. -/
theorem attach_resets_accessors (s₁ s₂ : InstSt) (t foo : String) :
    (instAttach s₁ t).dynamicVars = (instAttach s₂ t).dynamicVars ∧
    (instAttach s₁ t).dynamicVarNames = (instAttach s₂ t).dynamicVarNames ∧
    (foo ∈ (instAttach s₁ t).dynamicVarNames ↔ foo ∈ phNames t.toList) := by
  refine ⟨rfl, rfl, ?_⟩
  show foo ∈ varNames t.toList ↔ _
  rw [varNames, phNames, mem_foldl_nameStep]
  simp

theorem isWordChar_ne_dollar {c : Char} (h : isWordChar c = true) : c ≠ '$' := by
  intro hc
  subst hc
  exact absurd h (by decide)

/-- C10: a placeholder with an empty inline default, `$name=$`, is not
recognized at all: the scan yields only literal characters, `attach` creates
no variable and no accessor for it, and rendering leaves the text verbatim,
because `[^$]+` in the shared grammar requires at least one non-`$`
character. -/
theorem empty_default_not_recognized (name : String)
    (h1 : name.toList ≠ [])
    (h2 : ∀ c ∈ name.toList, isWordChar c = true) :
    scanTemplate (("$" ++ name ++ "=$").toList) =
      (("$" ++ name ++ "=$").toList).map Tok.lit ∧
    parseVars (("$" ++ name ++ "=$").toList) = [] ∧
    (∀ vars, renderChars vars (("$" ++ name ++ "=$").toList) =
      ("$" ++ name ++ "=$").toList) ∧
    (instAttach sampleInst ("$" ++ name ++ "=$")).dynamicVars = [] ∧
    (instAttach sampleInst ("$" ++ name ++ "=$")).dynamicVarNames = [] := by
  have hsplit : ("$" ++ name ++ "=$").toList = '$' :: (name.toList ++ ['=', '$']) := rfl
  have hstops := takeWhile_append_stop name.toList ['$'] '=' h2 (by decide)
  have hm : matchPH ('$' :: (name.toList ++ '=' :: ['$'])) = none := by
    simp only [matchPH, hstops.1, hstops.2, if_pos rfl, if_neg h1]
    simp
  have hscan : scanTemplate (("$" ++ name ++ "=$").toList) =
      (("$" ++ name ++ "=$").toList).map Tok.lit := by
    rw [hsplit, scanTemplate_cons, hm]
    show Tok.lit '$' :: scanTemplate (name.toList ++ ['=', '$']) = _
    rw [scanTemplate_lit_append name.toList ['=', '$']
      (fun c hc => isWordChar_ne_dollar (h2 c hc))]
    rw [show scanTemplate ['=', '$'] = [Tok.lit '=', Tok.lit '$'] from rfl]
    simp
  have hp : parseVars (("$" ++ name ++ "=$").toList) = [] := by
    rw [parseVars, hscan, foldl_phStep_lits]
  have hv : varNames (("$" ++ name ++ "=$").toList) = [] := by
    rw [varNames, hscan, foldl_nameStep_lits]
  exact ⟨hscan, hp,
    fun vars => by rw [renderChars_flatMap, hscan, flatMap_tokStr_lits],
    hp, hv⟩

/-- C10 witness: the literal template `$dogCount=$`. -/
theorem empty_default_not_recognized_w :
    parseVars (("$" ++ "dogCount" ++ "=$").toList) = [] ∧
    renderChars [] (("$" ++ "dogCount" ++ "=$").toList) =
      ("$" ++ "dogCount" ++ "=$").toList := by
  have h := empty_default_not_recognized ("dogCount") (by decide) (by decide)
  exact ⟨h.2.1, h.2.2.1 []⟩

/-! ## The global registry

The static state of the class: `allLoadedElements` (the live set, a `Set` in
insertion order), `instancesById` (name → instance), `objectRegistry`
(name → `Object3D`), the scene objects themselves (id → current name; names
are mutable, `attachClone` reassigns them), the `removed`-event listener
registrations (object id × instance id), and `defaultScaleMultiplier`.
Instances are identified by the order of their construction (`nextInst`).
The model covers a DOM-present environment, where the constructor adds every
instance to the live set. -/

structure ObjSt where
  name : String
deriving DecidableEq

structure Cfg where
  offset : ℚ × ℚ × ℚ
  simulate3D : Bool
  simulateRotation : Bool
  autoCenter : Bool
  scaleMultiplier : Option ℚ
deriving DecidableEq

structure World where
  objects : List (Nat × ObjSt)
  objectRegistry : List (String × Nat)
  insts : List (Nat × InstSt)
  nextInst : Nat
  live : List Nat
  byId : List (String × Nat)
  listeners : List (Nat × Nat)
  defaultScaleMultiplier : ℚ
deriving DecidableEq

/-- JavaScript `Set.add`: a no-op when the element is already present, else append. -/
def addLive (l : List Nat) (i : Nat) : List Nat :=
  if i ∈ l then l else l ++ [i]

/-- Constructor `new Sorcherer(object, offset, simulate3D, simulateRotation, autoCenter,
scaleMultiplier)`: snapshot the default multiplier when none is given, add
the instance to the live set, and subscribe a `removed` listener on the
target object when one is present.  Returns the new world and the id of the
new instance. -/
def newSorcherer (w : World) (objId : Option Nat) (cfg : Cfg) : World × Nat :=
  let i := w.nextInst
  let s : InstSt :=
    { objId := objId, disposed := false, template := "", dynamicVars := [],
      dynamicVarNames := [], offset := cfg.offset, simulate3D := cfg.simulate3D,
      simulateRotation := cfg.simulateRotation, autoCenter := cfg.autoCenter,
      scaleMultiplier := cfg.scaleMultiplier.getD w.defaultScaleMultiplier }
  ({ w with
      insts := setA w.insts i s
      nextInst := i + 1
      live := addLive w.live i
      listeners :=
        match objId with
        | some o => w.listeners ++ [(o, i)]
        | none => w.listeners }, i)

/-- Method `instance.attach(innerHTML)` on instance `i` of the world. -/
def attachW (w : World) (i : Nat) (t : String) : World :=
  match getA w.insts i with
  | none => w
  | some s => { w with insts := setA w.insts i (instAttach s t) }

/-- Method `instance.setDynamicVar(n, v)` on instance `i` of the world. -/
def setDynamicVarW (w : World) (i : Nat) (n v : String) : World :=
  match getA w.insts i with
  | none => w
  | some s => { w with insts := setA w.insts i (instSetVar s n v) }

/-- Method `dispose()`: a no-op when already disposed; otherwise mark disposed,
unsubscribe the `removed` listener, remove the instance from the live set,
delete `instancesById[object.name]` when the target object's *current* name
still maps to this instance, and null the object reference. -/
def dispose (w : World) (i : Nat) : World :=
  match getA w.insts i with
  | none => w
  | some s =>
    if s.disposed then w
    else
      { w with
        insts := setA w.insts i { s with disposed := true, objId := none }
        live := w.live.erase i
        listeners :=
          match s.objId with
          | some o => w.listeners.filter (fun p => p ≠ (o, i))
          | none => w.listeners
        byId :=
          match s.objId with
          | some o =>
            match getA w.objects o with
            | some obj =>
              if obj.name ≠ "" ∧ getA w.byId obj.name = some i
              then delA w.byId obj.name
              else w.byId
            | none => w.byId
          | none => w.byId }

/-- Static method `Sorcherer.registerObject3D(object)`. -/
def registerObject3D (w : World) (oid : Nat) : World :=
  match getA w.objects oid with
  | none => w
  | some obj =>
    if obj.name ≠ ""
    then { w with objectRegistry := setA w.objectRegistry obj.name oid }
    else w

/-- One `<realm>` child element of `attachFromRealm`, with attribute `idm`,
parsed attributes `cfg` and content `html`: look the object up in the
registry; if the object's name is taken in `instancesById`, dispose the
previous holder; construct a fresh instance, attach the content, and
register the instance under the object's name. -/
def attachFromRealmOne (w : World) (idm : String) (cfg : Cfg) (html : String) : World :=
  if idm = "" then w
  else
    match getA w.objectRegistry idm with
    | none => w
    | some oid =>
      match getA w.objects oid with
      | none => w
      | some obj =>
        let w1 :=
          if obj.name ≠ "" then
            match getA w.byId obj.name with
            | some j => dispose w j
            | none => w
          else w
        let p := newSorcherer w1 (some oid) cfg
        let w3 := attachW p.1 p.2 html
        if obj.name ≠ "" then { w3 with byId := setA w3.byId obj.name p.2 } else w3

/-- Method `attachClone(targetObject, newName)` on source instance `srcId`:
construct a clone with the source's configuration, attach the source's
template, copy the current variable values, and — when a new name is given —
rename the target object and register the clone under the new name.  The
previous holder of `newName` in `instancesById` is *not* disposed. -/
def attachClone (w : World) (srcId targetOid : Nat) (newName : String) : World :=
  match getA w.insts srcId with
  | none => w
  | some src =>
    let cfg : Cfg :=
      { offset := src.offset, simulate3D := src.simulate3D,
        simulateRotation := src.simulateRotation, autoCenter := src.autoCenter,
        scaleMultiplier := some src.scaleMultiplier }
    let p := newSorcherer w (some targetOid) cfg
    let w2 := attachW p.1 p.2 src.template
    let w3 := src.dynamicVars.foldl (fun acc kv => setDynamicVarW acc p.2 kv.1 kv.2) w2
    if newName ≠ "" then
      { w3 with
        objects := setA w3.objects targetOid { name := newName }
        byId := setA w3.byId newName p.2 }
    else w3

/-! ## Component lemmas about the registry operations -/

theorem dispose_nextInst (w : World) (i : Nat) : (dispose w i).nextInst = w.nextInst := by
  rw [dispose]
  split
  · rfl
  · split
    · rfl
    · rfl

theorem dispose_objects_eq (w : World) (i : Nat) : (dispose w i).objects = w.objects := by
  rw [dispose]
  split
  · rfl
  · split
    · rfl
    · rfl

theorem dispose_insts_eq (w : World) (i : Nat) (s : InstSt)
    (hinst : getA w.insts i = some s) (hnd : s.disposed = false) :
    (dispose w i).insts = setA w.insts i { s with disposed := true, objId := none } := by
  rw [dispose, hinst]
  simp [hnd]

theorem dispose_live_eq (w : World) (i : Nat) (s : InstSt)
    (hinst : getA w.insts i = some s) (hnd : s.disposed = false) :
    (dispose w i).live = w.live.erase i := by
  rw [dispose, hinst]
  simp [hnd]

theorem setDynamicVarW_byId (w : World) (i : Nat) (n v : String) :
    (setDynamicVarW w i n v).byId = w.byId := by
  rw [setDynamicVarW]
  split <;> rfl

theorem setDynamicVarW_live (w : World) (i : Nat) (n v : String) :
    (setDynamicVarW w i n v).live = w.live := by
  rw [setDynamicVarW]
  split <;> rfl

theorem setDynamicVarW_getA_ne (w : World) (i k : Nat) (n v : String) (hk : k ≠ i) :
    getA (setDynamicVarW w i n v).insts k = getA w.insts k := by
  rw [setDynamicVarW]
  split
  · rfl
  · exact getA_setA_ne _ _ _ _ hk

theorem foldl_setDynW_byId (l : List (String × String)) (w : World) (i : Nat) :
    (l.foldl (fun acc kv => setDynamicVarW acc i kv.1 kv.2) w).byId = w.byId := by
  induction l generalizing w with
  | nil => rfl
  | cons kv rest ih => rw [List.foldl_cons, ih, setDynamicVarW_byId]

theorem foldl_setDynW_live (l : List (String × String)) (w : World) (i : Nat) :
    (l.foldl (fun acc kv => setDynamicVarW acc i kv.1 kv.2) w).live = w.live := by
  induction l generalizing w with
  | nil => rfl
  | cons kv rest ih => rw [List.foldl_cons, ih, setDynamicVarW_live]

theorem foldl_setDynW_getA_ne (l : List (String × String)) (w : World) (i k : Nat)
    (hk : k ≠ i) :
    getA (l.foldl (fun acc kv => setDynamicVarW acc i kv.1 kv.2) w).insts k =
      getA w.insts k := by
  induction l generalizing w with
  | nil => rfl
  | cons kv rest ih => rw [List.foldl_cons, ih, setDynamicVarW_getA_ne _ _ _ _ _ hk]

/-! ## Concrete traces

A world with three scene objects named `cube`, `ball` and `moon`; `cube` and
`ball` are registered, one overlay is attached to `cube` from markup, and
the traces below exercise `attachClone` and `dispose`. -/

def w0 : World :=
  { objects := [(1, ⟨"cube"⟩), (2, ⟨"ball"⟩), (3, ⟨"moon"⟩)],
    objectRegistry := [], insts := [], nextInst := 0, live := [], byId := [],
    listeners := [], defaultScaleMultiplier := 1 }

def cfg0 : Cfg :=
  { offset := (0, 0, 0), simulate3D := false, simulateRotation := false,
    autoCenter := false, scaleMultiplier := none }

def wReg : World := registerObject3D (registerObject3D w0 1) 2

/-- After `attachFromRealm` handled `<div idm="cube">hi</div>`: instance 0 is
live, bound to object 1, and registered under `"cube"`. -/
def wCube : World := attachFromRealmOne wReg ("cube") cfg0 ("hi")

/-- The state of instance 0 inside `wCube`. -/
def wCubeInst : InstSt :=
  { objId := some 1, disposed := false, template := "hi", dynamicVars := [],
    dynamicVarNames := [], offset := (0, 0, 0), simulate3D := false,
    simulateRotation := false, autoCenter := false, scaleMultiplier := 1 }

/-- A second overlay on `ball` (instance 1), then
`instance1.attachClone(moon, "cube")`: the clone (instance 2) is registered
under the name `"cube"`, which instance 0 already holds. -/
def c6World : World :=
  attachClone (attachFromRealmOne wCube ("ball") cfg0 ("hi")) 1 3 ("cube")

/-- Calling `instance0.attachClone(object1, "pumpkin")` renames instance 0's own
target object to `"pumpkin"` and registers the clone under it; then
`instance0.dispose()`. -/
def c7World : World := dispose (attachClone wCube 0 1 ("pumpkin")) 0

/-- C6 counterexample: `attachClone` with new name `"cube"` installs
instance 2 under the already-taken name `"cube"` (previously held by
instance 0), yet instance 0 is neither disposed nor removed from the live
set — refuting the claim that every operation attaching a new instance
under an existing name disposes the previous holder. -/
theorem attachClone_keeps_previous_holder :
    getA c6World.byId ("cube") = some 2 ∧
    (getA c6World.insts 0).map InstSt.disposed = some false ∧
    0 ∈ c6World.live ∧ (2 : Nat) ≠ 0 := by
  refine ⟨by decide, by decide, by decide, by decide⟩

/-- C6 amended: markup-driven construction (`attachFromRealm`) disposes the
previous holder of the target node's name — it is marked disposed, leaves
the live set, and the name maps to the new instance; `attachClone` with a
new name, by contrast, only overwrites the name mapping to the clone: the
states of all previously existing instances are unchanged (so a previous
holder of that name is *not* disposed) and the live set is preserved. -/
theorem per_name_registration (w : World) (idm : String) (cfg : Cfg) (html : String)
    (oid : Nat) (obj : ObjSt) (j : Nat) (sj : InstSt)
    (hidm : idm ≠ "")
    (hreg : getA w.objectRegistry idm = some oid)
    (hobj : getA w.objects oid = some obj)
    (hname : obj.name ≠ "")
    (hby : getA w.byId obj.name = some j)
    (hinst : getA w.insts j = some sj)
    (hnd : sj.disposed = false)
    (hj : j ≠ w.nextInst)
    (hnodup : w.live.Nodup) :
    ((getA (attachFromRealmOne w idm cfg html).insts j).map InstSt.disposed = some true ∧
     j ∉ (attachFromRealmOne w idm cfg html).live ∧
     getA (attachFromRealmOne w idm cfg html).byId obj.name = some w.nextInst) ∧
    (∀ (src tgt : Nat) (nm : String) (ssrc : InstSt),
       getA w.insts src = some ssrc → nm ≠ "" →
       getA (attachClone w src tgt nm).byId nm = some w.nextInst ∧
       (∀ k sk, k ≠ w.nextInst → getA w.insts k = some sk →
          getA (attachClone w src tgt nm).insts k = some sk) ∧
       (∀ k, k ∈ w.live → k ∈ (attachClone w src tgt nm).live)) := by
  constructor
  · have hnext : (dispose w j).nextInst = w.nextInst := dispose_nextInst w j
    refine ⟨?_, ?_, ?_⟩
    · simp only [attachFromRealmOne, if_neg hidm, hreg, hobj, hby, if_pos hname,
        newSorcherer, attachW, getA_setA_eq]
      rw [hnext, getA_setA_ne _ _ _ _ hj, getA_setA_ne _ _ _ _ hj,
        dispose_insts_eq w j sj hinst hnd, getA_setA_eq]
      rfl
    · simp only [attachFromRealmOne, if_neg hidm, hreg, hobj, hby, if_pos hname,
        newSorcherer, attachW, getA_setA_eq]
      rw [hnext, dispose_live_eq w j sj hinst hnd, addLive]
      have hje : j ∉ w.live.erase j := fun hmem =>
        absurd ((List.Nodup.mem_erase_iff hnodup).mp hmem).1 (by simp)
      split
      · exact hje
      · intro hmem
        rcases List.mem_append.mp hmem with hmem | hmem
        · exact hje hmem
        · exact hj (List.mem_singleton.mp hmem)
    · simp only [attachFromRealmOne, if_neg hidm, hreg, hobj, hby, if_pos hname,
        newSorcherer, attachW, getA_setA_eq]
      rw [hnext]
  · intro src tgt nm ssrc hsrc hnm
    refine ⟨?_, ?_, ?_⟩
    · simp only [attachClone, hsrc, if_pos hnm, newSorcherer, attachW, getA_setA_eq]
    · intro k sk hk hks
      simp only [attachClone, hsrc, if_pos hnm, newSorcherer, attachW, getA_setA_eq]
      rw [foldl_setDynW_getA_ne _ _ _ _ hk, getA_setA_ne _ _ _ _ hk,
        getA_setA_ne _ _ _ _ hk]
      exact hks
    · intro k hk
      simp only [attachClone, hsrc, if_pos hnm, newSorcherer, attachW, getA_setA_eq]
      rw [foldl_setDynW_live, addLive]
      split
      · exact hk
      · exact List.mem_append.mpr (Or.inl hk)

/-- C6 witness: on the concrete world `wCube` (name `"cube"` held by
instance 0), re-attaching from markup disposes instance 0, while cloning
instance 0 onto object 2 under the name `"ball"` registers the clone. -/
theorem per_name_registration_w :
    (getA (attachFromRealmOne wCube ("cube") cfg0 ("hi")).insts 0).map
      InstSt.disposed = some true ∧
    getA (attachClone wCube 0 2 ("ball")).byId ("ball") = some wCube.nextInst := by
  have h := per_name_registration wCube ("cube") cfg0 ("hi") 1 ⟨"cube"⟩ 0 wCubeInst
    (by decide) (by decide) (by decide) (by decide) (by decide) (by decide)
    (by decide) (by decide) (by decide)
  exact ⟨h.1.1, (h.2 0 2 ("ball") wCubeInst (by decide) (by decide)).1⟩

/-- C7 counterexample: after `attachClone` renamed instance 0's target
object (registering the clone under the new name), disposing instance 0
marks it disposed but leaves its stale entry `"cube"` in the id-indexed
map — refuting the claim that after `dispose` the instance no longer
appears in the id-indexed map. -/
theorem dispose_stale_byId_entry :
    (getA c7World.insts 0).map InstSt.disposed = some true ∧
    getA c7World.byId ("cube") = some 0 := by
  refine ⟨by decide, by decide⟩

/-- C7 amended: `dispose` is idempotent — a second call returns the world
unchanged; after the first call the instance is no longer in the live set or
in its target node's removal notification channel, and its entry under the
target node's *current* name is removed from the id-indexed map (an entry
under a stale former name, possible after `attachClone` renamed the node, is
not removed). -/
theorem dispose_idempotent_cleanup (w : World) (i : Nat) :
    dispose (dispose w i) i = dispose w i ∧
    (∀ s, getA w.insts i = some s → s.disposed = false →
      (w.live.Nodup → i ∉ (dispose w i).live) ∧
      (∀ o, s.objId = some o → ((o, i) ∉ (dispose w i).listeners)) ∧
      (∀ o obj, s.objId = some o → getA w.objects o = some obj → obj.name ≠ "" →
         getA w.byId obj.name = some i → getA (dispose w i).byId obj.name = none)) := by
  constructor
  · cases hm : getA w.insts i with
    | none =>
      have hw : dispose w i = w := by rw [dispose, hm]
      rw [hw]
      exact hw
    | some s =>
      by_cases hd : s.disposed
      · have hw : dispose w i = w := by rw [dispose, hm]; simp [hd]
        rw [hw]
        exact hw
      · have hmark : getA (dispose w i).insts i =
            some { s with disposed := true, objId := none } := by
          rw [dispose_insts_eq w i s hm (by simpa using hd), getA_setA_eq]
        conv_lhs => rw [dispose]
        rw [hmark]
        simp
  · intro s hm hnd
    refine ⟨?_, ?_, ?_⟩
    · intro hnodup hmem
      rw [dispose_live_eq w i s hm hnd] at hmem
      exact absurd ((List.Nodup.mem_erase_iff hnodup).mp hmem).1 (by simp)
    · intro o ho hmem
      have hl : (dispose w i).listeners = w.listeners.filter (fun p => p ≠ (o, i)) := by
        rw [dispose, hm]
        simp [hnd, ho]
      rw [hl] at hmem
      have := List.of_mem_filter hmem
      simp at this
    · intro o obj ho hobj hname hbyid
      have hb : (dispose w i).byId = delA w.byId obj.name := by
        rw [dispose, hm]
        simp [hnd, ho, hobj, hname, hbyid]
      rw [hb]
      exact getA_delA_eq _ _

/-- C7 witness: disposing instance 0 of the concrete world `wCube` removes
it from the live set and from object 1's removal notification channel. -/
theorem dispose_idempotent_cleanup_w :
    0 ∉ (dispose wCube 0).live ∧ ((1, 0) : Nat × Nat) ∉ (dispose wCube 0).listeners := by
  have h := (dispose_idempotent_cleanup wCube 0).2 wCubeInst (by decide) (by decide)
  exact ⟨h.1 (by decide), h.2.1 1 (by decide)⟩

end Sorcherer
